import Mathlib

/-!
Verification of the graph attention convolution layer (`triton_tests/gat.py`,
class `GATConv`).  The layer is embedded shallowly: tensors indexed by natural
numbers become functions `ℕ → ℚ` together with explicit dimension arguments,
the edge index becomes a list of (source, destination) pairs, and the
framework primitives the code calls (`remove_self_loops`, `add_self_loops`,
grouped `softmax`, scatter-add aggregation, `F.dropout`, `F.leaky_relu`)
become the corresponding pure functions.  Scalars are rationals, the exact
idealization of the float arithmetic; the exponential inside the grouped
softmax is threaded as an explicit parameter `E : ℚ → ℚ` (the code runs at
`E = exp`), and every theorem about the softmax assumes of `E` only strict
positivity, which the exponential satisfies — so each such theorem holds in
particular for the code's softmax.  Randomness of dropout is modelled by an
explicit keep-mask oracle; with `training = false` the oracle is unused,
mirroring `F.dropout(training=False)` being the identity.
-/

namespace GAT

/-- The learnable state and hyper-parameters of a `GATConv` module
(`__init__`, lines 30-63).  `W o c` is entry `[o, c]` of the weight of
`self.lin` (output row `o`, input column `c`); `attSrc h f` and `attDst h f`
are the entries of `self.att_src` and `self.att_dst` at head `h`, channel
`f`.  `training` is the `nn.Module` training flag consulted by `F.dropout`. -/
structure GATConv where
  inChannels : ℕ
  outChannels : ℕ
  heads : ℕ
  concat : Bool
  negativeSlope : ℚ
  dropoutP : ℚ
  addSelfLoops : Bool
  W : ℕ → ℕ → ℚ
  attSrc : ℕ → ℕ → ℚ
  attDst : ℕ → ℕ → ℚ
  training : Bool

/-- `x = self.lin(x).view(-1, x_dim, H, F)` (line 100): the node features
projected by the bias-free linear layer and reshaped to `[N, x_dim, H, F]`;
flat output channel `h * F + f` becomes head `h`, channel `f`. -/
def xProj (g : GATConv) (x : ℕ → ℕ → ℕ → ℚ) (n d h f : ℕ) : ℚ :=
  ∑ c ∈ Finset.range g.inChannels, g.W (h * g.outChannels + f) c * x n d c

/-- `alpha_src = (x * self.att_src).sum(dim=-1)` (line 104): per-node,
per-head source logit. -/
def alphaSrcN (g : GATConv) (x : ℕ → ℕ → ℕ → ℚ) (n d h : ℕ) : ℚ :=
  ∑ f ∈ Finset.range g.outChannels, xProj g x n d h f * g.attSrc h f

/-- `alpha_dst = (x * self.att_dst).sum(dim=-1)` (line 105): per-node,
per-head destination logit. -/
def alphaDstN (g : GATConv) (x : ℕ → ℕ → ℕ → ℚ) (n d h : ℕ) : ℚ :=
  ∑ f ∈ Finset.range g.outChannels, xProj g x n d h f * g.attDst h f

/-- Source node of the `k`-th edge (`edge_index[0][k]`). -/
def srcAt (es : List (ℕ × ℕ)) (k : ℕ) : ℕ := (es.getD k (0, 0)).1

/-- Destination node of the `k`-th edge (`edge_index[1][k]`); the grouping
index of the softmax. -/
def dstAt (es : List (ℕ × ℕ)) (k : ℕ) : ℕ := (es.getD k (0, 0)).2

/-- `alpha = (alpha_j + alpha_i).mean(dim=1, keepdim=True)` (line 145): for
edge `k` and head `h`, the mean over the `x_dim` axis of the per-head sums
of the gathered source and destination logits.  With `keepdim=True` the
result has shape `[E, 1, H]`; the collapsed axis is left implicit here. -/
def alphaMean (g : GATConv) (x : ℕ → ℕ → ℕ → ℚ) (D : ℕ) (es : List (ℕ × ℕ))
    (k h : ℕ) : ℚ :=
  (∑ d ∈ Finset.range D,
    (alphaSrcN g x (srcAt es k) d h + alphaDstN g x (dstAt es k) d h)) / D

/-- `F.leaky_relu` with slope `s`. -/
def leakyRelu (s v : ℚ) : ℚ := if 0 ≤ v then v else s * v

/-- `alpha = F.leaky_relu(alpha, self.negative_slope)` (line 149). -/
def scoresE (g : GATConv) (x : ℕ → ℕ → ℕ → ℚ) (D : ℕ) (es : List (ℕ × ℕ))
    (k h : ℕ) : ℚ :=
  leakyRelu g.negativeSlope (alphaMean g x D es k h)

/-- The denominator of the grouped softmax for destination node `j`: the sum
of the exponentials `E` of the scores of every edge whose destination is
`j`. -/
def expSum (E : ℚ → ℚ) (g : GATConv) (x : ℕ → ℕ → ℕ → ℚ) (D : ℕ)
    (es : List (ℕ × ℕ)) (j h : ℕ) : ℚ :=
  ∑ k ∈ (Finset.range es.length).filter (fun k => dstAt es k = j),
    E (scoresE g x D es k h)

/-- `alpha = softmax(alpha, index, ptr, size_i)` (line 150): softmax over all
edges sharing the same destination index, independently per head. -/
def softmaxW (E : ℚ → ℚ) (g : GATConv) (x : ℕ → ℕ → ℕ → ℚ) (D : ℕ)
    (es : List (ℕ × ℕ)) (k h : ℕ) : ℚ :=
  E (scoresE g x D es k h) / expSum E g x D es (dstAt es k) h

/-- `F.dropout(·, p, training)` on the per-edge, per-head weights, with the
random keep decisions supplied by an oracle `keep`; with `training = false`
it is the identity, exactly as in `torch`. -/
def dropoutF (training : Bool) (p : ℚ) (keep : ℕ → ℕ → Bool)
    (w : ℕ → ℕ → ℚ) (k h : ℕ) : ℚ :=
  if training then (if keep k h then w k h / (1 - p) else 0) else w k h

/-- `GATConv.edge_update` (lines 140-152): sum-then-mean of the endpoint
logits; if the edge set is empty the (empty) logits are returned unchanged,
otherwise leaky-ReLU, grouped softmax and dropout are applied. -/
def edgeUpdate (E : ℚ → ℚ) (g : GATConv) (x : ℕ → ℕ → ℕ → ℚ) (D : ℕ)
    (es : List (ℕ × ℕ)) (keep : ℕ → ℕ → Bool) (k h : ℕ) : ℚ :=
  if es.length = 0 then alphaMean g x D es k h
  else dropoutF g.training g.dropoutP keep (softmaxW E g x D es) k h

/-- `torch_geometric.utils.remove_self_loops` on an edge list: drop every
edge whose endpoints coincide (line 113). -/
def removeSelfLoopsE (es : List (ℕ × ℕ)) : List (ℕ × ℕ) :=
  es.filter (fun e => e.1 != e.2)

/-- The self-loop edges `(i, i)` for `i < n` appended by
`torch_geometric.utils.add_self_loops`. -/
def selfLoops (n : ℕ) : List (ℕ × ℕ) :=
  (List.range n).map (fun i => (i, i))

/-- `torch_geometric.utils.add_self_loops` on an edge list (line 115):
append one self-loop per node index below `n`. -/
def addSelfLoopsE (es : List (ℕ × ℕ)) (n : ℕ) : List (ℕ × ℕ) :=
  es ++ selfLoops n

/-- `num_nodes = x.size(0)`, overridden by `min(size)` when an explicit
bipartite size pair is given (lines 111-112). -/
def effectiveNumNodes (N : ℕ) (size : Option (ℕ × ℕ)) : ℕ :=
  match size with
  | none => N
  | some s => min s.1 s.2

/-- The edge list actually used by `forward` (lines 108-117): when
`add_self_loops` is enabled, existing self-loops are removed and one
self-loop per eligible node is appended; otherwise the caller's edges are
used as-is. -/
def augmentedEdges (asl : Bool) (es : List (ℕ × ℕ)) (N : ℕ)
    (size : Option (ℕ × ℕ)) : List (ℕ × ℕ) :=
  if asl then addSelfLoopsE (removeSelfLoopsE es) (effectiveNumNodes N size)
  else es

/-- Mean of a list of rationals — the `fill_value='mean'` policy of
`add_self_loops` for the attributes of the inserted loops, taken over all
existing edge attributes. -/
def fillMean (l : List ℚ) : ℚ := l.sum / l.length

/-- The edge-attribute list kept in sync with `remove_self_loops`: the
attribute of every self-referencing edge is dropped together with the edge. -/
def removeSelfLoopsAttr (es : List (ℕ × ℕ)) (attr : List ℚ) : List ℚ :=
  ((es.zip attr).filter (fun p => p.1.1 != p.1.2)).map Prod.snd

/-- The edge-attribute list kept in sync with `add_self_loops` under the
`mean` fill policy: one mean-filled attribute per inserted loop. -/
def addSelfLoopsAttr (attr : List ℚ) (n : ℕ) : List ℚ :=
  attr ++ List.replicate n (fillMean attr)

/-- The optional edge-attribute tensor after the self-loop removal and
re-addition of lines 113-117. -/
def augmentedAttr (asl : Bool) (es : List (ℕ × ℕ)) (attr : Option (List ℚ))
    (N : ℕ) (size : Option (ℕ × ℕ)) : Option (List ℚ) :=
  if asl then
    attr.map (fun a =>
      addSelfLoopsAttr (removeSelfLoopsAttr es a) (effectiveNumNodes N size))
  else attr

/-- `self.propagate(edge_index, x=x, alpha=alpha)` with `aggr='add'` and
`message = alpha.unsqueeze(-1) * x_j` (lines 123, 154-155): scatter-add, over
all edges with destination `n`, of the attention-weighted projected source
features. -/
def aggOut (E : ℚ → ℚ) (g : GATConv) (x : ℕ → ℕ → ℕ → ℚ) (D : ℕ)
    (es : List (ℕ × ℕ)) (keep : ℕ → ℕ → Bool) (n d h f : ℕ) : ℚ :=
  ∑ k ∈ (Finset.range es.length).filter (fun k => dstAt es k = n),
    edgeUpdate E g x D es keep k h * xProj g x (srcAt es k) d h f

/-- The final per-node, per-position feature vector (lines 125-128): with
`concat` the heads are flattened to width `heads * out_channels`
(`out.view(-1, x_dim, H * F)`), otherwise the heads are averaged
(`out.mean(dim=2)`), width `out_channels`. -/
def forwardFeature (E : ℚ → ℚ) (g : GATConv) (x : ℕ → ℕ → ℕ → ℚ) (D : ℕ)
    (es : List (ℕ × ℕ)) (keep : ℕ → ℕ → Bool) (n d : ℕ) : List ℚ :=
  if g.concat then
    (List.range (g.heads * g.outChannels)).map
      (fun o => aggOut E g x D es keep n d (o / g.outChannels) (o % g.outChannels))
  else
    (List.range g.outChannels).map
      (fun f => (∑ h ∈ Finset.range g.heads, aggOut E g x D es keep n d h f) / g.heads)

/-- The adjacency argument: either a dense edge-index tensor or a torch
sparse tensor carrying per-edge values (`is_torch_sparse_tensor`
distinguishes the two at line 131). -/
inductive AdjT : Type
  | dense (es : List (ℕ × ℕ))
  | sparse (es : List (ℕ × ℕ)) (vals : ℕ → ℕ → ℚ)

/-- The edge list carried by an adjacency. -/
def AdjT.edges : AdjT → List (ℕ × ℕ)
  | .dense es => es
  | .sparse es _ => es

/-- `is_torch_sparse_tensor`. -/
def AdjT.isSparse : AdjT → Bool
  | .dense _ => false
  | .sparse _ _ => true

/-- Self-loop removal and re-addition applied to the adjacency,
preserving its representation. -/
def augmentAdj (asl : Bool) (N : ℕ) (size : Option (ℕ × ℕ)) : AdjT → AdjT
  | .dense es => .dense (augmentedEdges asl es N size)
  | .sparse es v => .sparse (augmentedEdges asl es N size) v

/-- `set_sparse_value(edge_index, alpha)` (line 133): the same sparse
adjacency with the attention weights installed as its values. -/
def setSparseValue (a : AdjT) (alpha : ℕ → ℕ → ℚ) : AdjT :=
  match a with
  | .dense es => .dense es
  | .sparse es _ => .sparse es alpha

/-- The result of `forward`: either the node-embedding tensor alone, or
additionally the (augmented) adjacency and the per-edge per-head attention
weights (lines 130-138). -/
inductive GATResult : Type
  | plain (out : ℕ → ℕ → List ℚ)
  | withAtt (out : ℕ → ℕ → List ℚ) (adj : AdjT) (alpha : ℕ → ℕ → ℚ)

/-- The adjacency component of a result, when present. -/
def GATResult.adjOf : GATResult → Option AdjT
  | .plain _ => none
  | .withAtt _ adj _ => some adj

/-- `GATConv.forward` after the rank assertion (lines 99-138), on a rank-3
input of shape `[N, D, in_channels]` given as an index function: self-loop
augmentation, `edge_updater`, `propagate`, head concatenation or averaging,
and the return-shape dispatch on `return_attention_weights` and on the
sparseness of the adjacency. -/
def forwardCore (E : ℚ → ℚ) (g : GATConv) (N D : ℕ) (x : ℕ → ℕ → ℕ → ℚ)
    (adj : AdjT) (attr : Option (List ℚ)) (size : Option (ℕ × ℕ))
    (retAtt : Option Bool) (keep : ℕ → ℕ → Bool) : GATResult :=
  let adj2 := augmentAdj g.addSelfLoops N size adj
  let es := adj2.edges
  let alpha := edgeUpdate E g x D es keep
  let out := forwardFeature E g x D es keep
  match retAtt with
  | some _ =>
    if adj.isSparse then .withAtt out (setSparseValue adj2 alpha) alpha
    else .withAtt out adj2 alpha
  | none => .plain out

/-- A runtime tensor for the rank check of line 98: a shape together with an
index function. -/
structure InTensor where
  shape : List ℕ
  data : ℕ → ℕ → ℕ → ℚ

/-- `GATConv.forward` including the hard assertion of line 98: a non-rank-3
input fails immediately with the assertion message, before any other
computation; a rank-3 input `[N, D, C]` proceeds with `forwardCore`. -/
def forwardChecked (E : ℚ → ℚ) (g : GATConv) (xT : InTensor) (adj : AdjT)
    (attr : Option (List ℚ)) (size : Option (ℕ × ℕ))
    (retAtt : Option Bool) (keep : ℕ → ℕ → Bool) :
    Except String GATResult :=
  if xT.shape.length = 3 then
    .ok (forwardCore E g (xT.shape.getD 0 0) (xT.shape.getD 1 0) xT.data adj
      attr size retAtt keep)
  else .error "Static graphs not supported in GATConv"

/-- `forward` with the caller's bindings threaded explicitly: the result of
the call together with the edge index and edge attributes the caller holds
afterwards.  The source only rebinds its local `edge_index` / `edge_attr`
names to the fresh tensors returned by `remove_self_loops` and
`add_self_loops`; no in-place operation touches the caller's tensors, so the
caller's state after the call is its state before it. -/
def forwardFrame (E : ℚ → ℚ) (g : GATConv) (N D : ℕ) (x : ℕ → ℕ → ℕ → ℚ)
    (es : List (ℕ × ℕ)) (attr : Option (List ℚ)) (size : Option (ℕ × ℕ))
    (retAtt : Option Bool) (keep : ℕ → ℕ → Bool) :
    GATResult × List (ℕ × ℕ) × Option (List ℚ) :=
  (forwardCore E g N D x (.dense es) attr size retAtt keep, es, attr)

end GAT

namespace GAT

lemma selfLoops_succ (m : ℕ) : selfLoops (m + 1) = selfLoops m ++ [(m, m)] := by
  simp [selfLoops, List.range_succ]

lemma mem_selfLoops {p : ℕ × ℕ} {n : ℕ} :
    p ∈ selfLoops n ↔ p.1 = p.2 ∧ p.1 < n := by
  constructor
  · intro hp
    rcases List.mem_map.mp hp with ⟨i, hi, hip⟩
    subst hip
    exact ⟨rfl, List.mem_range.mp hi⟩
  · rcases p with ⟨a, b⟩
    intro ⟨h1, h2⟩
    dsimp at h1 h2
    subst h1
    exact List.mem_map.mpr ⟨a, List.mem_range.mpr h2, rfl⟩

lemma count_selfLoops_diag (i n : ℕ) :
    (selfLoops n).count (i, i) = if i < n then 1 else 0 := by
  induction n with
  | zero => simp [selfLoops]
  | succ m ih =>
    rw [selfLoops_succ, List.count_append, ih]
    by_cases him : i = m
    · subst him
      simp
    · have h1 : List.count (i, i) [(m, m)] = 0 := by
        rw [List.count_eq_zero]
        simp [Prod.ext_iff, him]
      rw [h1]
      have h2 : (i < m + 1) ↔ (i < m) := by omega
      simp [h2]

lemma count_selfLoops_offdiag {p : ℕ × ℕ} (hp : p.1 ≠ p.2) (n : ℕ) :
    (selfLoops n).count p = 0 :=
  List.count_eq_zero.mpr (fun hm => hp (mem_selfLoops.mp hm).1)

lemma count_removeSelfLoops (es : List (ℕ × ℕ)) (p : ℕ × ℕ) :
    (removeSelfLoopsE es).count p = if p.1 ≠ p.2 then es.count p else 0 := by
  by_cases hp : p.1 ≠ p.2
  · rw [if_pos hp]
    exact List.count_filter (by simpa using hp)
  · rw [if_neg hp]
    exact List.count_eq_zero.mpr
      (fun hm => hp (by simpa using List.of_mem_filter hm))

/-- Claim C2: with `add_self_loops` enabled, `forward` first removes every
existing self-loop and then appends exactly one self-loop per node index
below the effective node count, which is `min` of the size pair in the
bipartite case; every non-self-referencing edge is kept with its
multiplicity; on the 3-node graph with edges [(0,1),(1,2)] the augmented
edge set is exactly [(0,1),(1,2),(0,0),(1,1),(2,2)], with no duplicate even
when (0,0) was already present; no self-loop appears at or above the
effective node count. -/
theorem self_loop_augmentation (es : List (ℕ × ℕ)) (N : ℕ)
    (size : Option (ℕ × ℕ)) :
    (∀ i, i < effectiveNumNodes N size →
      (augmentedEdges true es N size).count (i, i) = 1) ∧
    (∀ i, effectiveNumNodes N size ≤ i →
      (augmentedEdges true es N size).count (i, i) = 0) ∧
    (∀ p : ℕ × ℕ, p.1 ≠ p.2 →
      (augmentedEdges true es N size).count p = es.count p) ∧
    (∀ s1 s2 : ℕ, effectiveNumNodes N (some (s1, s2)) = min s1 s2) ∧
    augmentedEdges true [(0, 1), (1, 2)] 3 none
      = [(0, 1), (1, 2), (0, 0), (1, 1), (2, 2)] ∧
    augmentedEdges true [(0, 0), (0, 1), (1, 2)] 3 none
      = [(0, 1), (1, 2), (0, 0), (1, 1), (2, 2)] := by
  refine ⟨?_, ?_, ?_, fun s1 s2 => rfl, by rfl, by rfl⟩
  · intro i hi
    rw [augmentedEdges, if_pos rfl, addSelfLoopsE, List.count_append,
      count_removeSelfLoops, count_selfLoops_diag, if_pos hi]
    simp
  · intro i hi
    have hn : ¬ i < effectiveNumNodes N size := by omega
    rw [augmentedEdges, if_pos rfl, addSelfLoopsE, List.count_append,
      count_removeSelfLoops, count_selfLoops_diag, if_neg hn]
    simp
  · intro p hp
    rw [augmentedEdges, if_pos rfl, addSelfLoopsE, List.count_append,
      count_removeSelfLoops, if_pos hp, count_selfLoops_offdiag hp]
    simp

/-- Closed witness for `self_loop_augmentation`, exercising the unit-count
branch, the out-of-range branch (bipartite size pair) and the
preserved-edge branch at concrete inputs. -/
theorem self_loop_augmentation_witness :
    (augmentedEdges true [(0, 0), (0, 1), (1, 2)] 3 none).count (1, 1) = 1 ∧
    (augmentedEdges true [(0, 1)] 4 (some (1, 5))).count (3, 3) = 0 ∧
    (augmentedEdges true [(0, 1), (0, 1), (1, 2)] 3 none).count (0, 1) = 2 :=
  ⟨(self_loop_augmentation [(0, 0), (0, 1), (1, 2)] 3 none).1 1 (by decide),
   (self_loop_augmentation [(0, 1)] 4 (some (1, 5))).2.1 3 (by decide),
   (self_loop_augmentation [(0, 1), (0, 1), (1, 2)] 3 none).2.2.1 (0, 1)
     (by decide) |>.trans (by decide)⟩

lemma forwardCore_dense_adjOf (E : ℚ → ℚ) (g : GATConv) (N D : ℕ)
    (x : ℕ → ℕ → ℕ → ℚ) (es : List (ℕ × ℕ)) (attr : Option (List ℚ))
    (size : Option (ℕ × ℕ)) (retAtt : Option Bool) (keep : ℕ → ℕ → Bool) :
    (forwardCore E g N D x (.dense es) attr size retAtt keep).adjOf
      = if retAtt.isSome then
          some (.dense (augmentedEdges g.addSelfLoops es N size))
        else none := by
  cases retAtt with
  | none => rfl
  | some b => rfl

/-- Claim C10: with `add_self_loops` enabled and no explicit size pair, the
number of nodes receiving a self-loop is the first dimension `N` of the
rank-3 input (`x.size(0)`): the augmented edge list holds exactly one loop
`(i, i)` for each `i < N` and none for `i ≥ N`, and the adjacency returned by
`forward` is unchanged when the second dimension `x.shape[1]` changes. -/
theorem self_loop_count_uses_first_dim (g : GATConv)
    (hasl : g.addSelfLoops = true) (es : List (ℕ × ℕ)) (N : ℕ) :
    (∀ i, i < N → (augmentedEdges g.addSelfLoops es N none).count (i, i) = 1) ∧
    (∀ i, N ≤ i → (augmentedEdges g.addSelfLoops es N none).count (i, i) = 0) ∧
    (∀ (E : ℚ → ℚ) (D₁ D₂ : ℕ) (x : ℕ → ℕ → ℕ → ℚ) (attr : Option (List ℚ))
      (retAtt : Option Bool) (keep : ℕ → ℕ → Bool),
      (forwardCore E g N D₁ x (.dense es) attr none retAtt keep).adjOf
        = (forwardCore E g N D₂ x (.dense es) attr none retAtt keep).adjOf) := by
  rw [hasl]
  refine ⟨fun i hi => (self_loop_augmentation es N none).1 i hi,
    fun i hi => (self_loop_augmentation es N none).2.1 i hi,
    fun E D₁ D₂ x attr retAtt keep => ?_⟩
  rw [forwardCore_dense_adjOf, forwardCore_dense_adjOf]

/-- Closed witness for `self_loop_count_uses_first_dim`: a module with
self-loops enabled, a 2-node graph with `x.shape[1]` varying between 1
and 7. -/
theorem self_loop_count_uses_first_dim_witness :
    (augmentedEdges true [(0, 1)] 2 none).count (1, 1) = 1 ∧
    (augmentedEdges true [(0, 1)] 2 none).count (5, 5) = 0 :=
  ⟨(self_loop_count_uses_first_dim
      { inChannels := 1, outChannels := 1, heads := 1, concat := true,
        negativeSlope := 1/5, dropoutP := 0, addSelfLoops := true,
        W := fun _ _ => 1, attSrc := fun _ _ => 1, attDst := fun _ _ => 1,
        training := false } rfl [(0, 1)] 2).1 1 (by decide),
   (self_loop_count_uses_first_dim
      { inChannels := 1, outChannels := 1, heads := 1, concat := true,
        negativeSlope := 1/5, dropoutP := 0, addSelfLoops := true,
        W := fun _ _ => 1, attSrc := fun _ _ => 1, attDst := fun _ _ => 1,
        training := false } rfl [(0, 1)] 2).2.1 5 (by decide)⟩


/-- Shared concrete instance used by closed witnesses: a 1-channel,
single-head module with self-loops, zero dropout, inference mode. -/
def gEx : GATConv :=
  { inChannels := 1, outChannels := 1, heads := 1, concat := true,
    negativeSlope := 1/5, dropoutP := 0, addSelfLoops := true,
    W := fun _ _ => 1, attSrc := fun _ _ => 1, attDst := fun _ _ => 1,
    training := false }

/-- Constant node features used by closed witnesses. -/
def xEx : ℕ → ℕ → ℕ → ℚ := fun _ _ _ => 1

/-- A strictly positive stand-in for the softmax exponential, used by closed
witnesses. -/
def oneE : ℚ → ℚ := fun _ => 1

/-- Dropout oracle keeping every weight. -/
def keepT : ℕ → ℕ → Bool := fun _ _ => true

/-- Dropout oracle discarding every weight. -/
def keepF : ℕ → ℕ → Bool := fun _ _ => false

/-- `gEx` with head averaging instead of concatenation. -/
def gExM : GATConv := { gEx with concat := false }

/-- `gEx` with self-loop augmentation disabled. -/
def gExNL : GATConv := { gEx with addSelfLoops := false }

lemma forwardCore_dense_some (E : ℚ → ℚ) (g : GATConv) (N D : ℕ)
    (x : ℕ → ℕ → ℕ → ℚ) (es : List (ℕ × ℕ)) (attr : Option (List ℚ))
    (size : Option (ℕ × ℕ)) (b : Bool) (keep : ℕ → ℕ → Bool) :
    forwardCore E g N D x (.dense es) attr size (some b) keep
      = .withAtt
          (forwardFeature E g x D (augmentedEdges g.addSelfLoops es N size) keep)
          (.dense (augmentedEdges g.addSelfLoops es N size))
          (edgeUpdate E g x D (augmentedEdges g.addSelfLoops es N size) keep) :=
  rfl

lemma forwardCore_sparse_some (E : ℚ → ℚ) (g : GATConv) (N D : ℕ)
    (x : ℕ → ℕ → ℕ → ℚ) (es : List (ℕ × ℕ)) (v : ℕ → ℕ → ℚ)
    (attr : Option (List ℚ)) (size : Option (ℕ × ℕ)) (b : Bool)
    (keep : ℕ → ℕ → Bool) :
    forwardCore E g N D x (.sparse es v) attr size (some b) keep
      = .withAtt
          (forwardFeature E g x D (augmentedEdges g.addSelfLoops es N size) keep)
          (.sparse (augmentedEdges g.addSelfLoops es N size)
            (edgeUpdate E g x D (augmentedEdges g.addSelfLoops es N size) keep))
          (edgeUpdate E g x D (augmentedEdges g.addSelfLoops es N size) keep) :=
  rfl

lemma forwardCore_none (E : ℚ → ℚ) (g : GATConv) (N D : ℕ)
    (x : ℕ → ℕ → ℕ → ℚ) (adj : AdjT) (attr : Option (List ℚ))
    (size : Option (ℕ × ℕ)) (keep : ℕ → ℕ → Bool) :
    forwardCore E g N D x adj attr size none keep
      = .plain (forwardFeature E g x D
          ((augmentAdj g.addSelfLoops N size adj).edges) keep) :=
  rfl

/-- Claim C5: `forward` asserts `x.dim() == 3` before anything else: a
non-rank-3 input (in particular the rank-2 static form) fails immediately
with the assertion message, and a rank-3 input passes the assertion and
produces a result. -/
theorem rank_three_assertion (E : ℚ → ℚ) (g : GATConv) (xT : InTensor)
    (adj : AdjT) (attr : Option (List ℚ)) (size : Option (ℕ × ℕ))
    (retAtt : Option Bool) (keep : ℕ → ℕ → Bool) :
    (xT.shape.length ≠ 3 →
      forwardChecked E g xT adj attr size retAtt keep
        = .error "Static graphs not supported in GATConv") ∧
    (xT.shape.length = 3 →
      forwardChecked E g xT adj attr size retAtt keep
        = .ok (forwardCore E g (xT.shape.getD 0 0) (xT.shape.getD 1 0)
            xT.data adj attr size retAtt keep)) := by
  constructor
  · intro h
    simp [forwardChecked, h]
  · intro h
    simp [forwardChecked, h]

/-- Closed witness for `rank_three_assertion`: a rank-2 tensor is rejected
with the assertion message and a rank-3 tensor is accepted. -/
theorem rank_three_assertion_witness :
    forwardChecked oneE gEx ⟨[2, 3], xEx⟩ (.dense []) none none none keepT
      = .error "Static graphs not supported in GATConv" ∧
    forwardChecked oneE gEx ⟨[1, 1, 1], xEx⟩ (.dense []) none none none keepT
      = .ok (forwardCore oneE gEx 1 1 xEx (.dense []) none none none keepT) :=
  ⟨(rank_three_assertion oneE gEx ⟨[2, 3], xEx⟩ (.dense []) none none none
      keepT).1 (by decide),
   (rank_three_assertion oneE gEx ⟨[1, 1, 1], xEx⟩ (.dense []) none none none
      keepT).2 rfl⟩

/-- Claim C6: when `return_attention_weights` is set to a boolean (either
value), `forward` returns the node embeddings together with the self-loop
augmented adjacency and the per-edge per-head attention weights; a sparse
adjacency comes back sparse, with the attention weights installed as its
edge values; with the flag unset, only the node-embedding tensor is
returned. -/
theorem return_attention_dispatch (E : ℚ → ℚ) (g : GATConv) (N D : ℕ)
    (x : ℕ → ℕ → ℕ → ℚ) (attr : Option (List ℚ)) (size : Option (ℕ × ℕ))
    (keep : ℕ → ℕ → Bool) :
    (∀ (b : Bool) (es : List (ℕ × ℕ)),
      forwardCore E g N D x (.dense es) attr size (some b) keep
        = .withAtt
            (forwardFeature E g x D (augmentedEdges g.addSelfLoops es N size) keep)
            (.dense (augmentedEdges g.addSelfLoops es N size))
            (edgeUpdate E g x D (augmentedEdges g.addSelfLoops es N size) keep)) ∧
    (∀ (b : Bool) (es : List (ℕ × ℕ)) (v : ℕ → ℕ → ℚ),
      forwardCore E g N D x (.sparse es v) attr size (some b) keep
        = .withAtt
            (forwardFeature E g x D (augmentedEdges g.addSelfLoops es N size) keep)
            (.sparse (augmentedEdges g.addSelfLoops es N size)
              (edgeUpdate E g x D (augmentedEdges g.addSelfLoops es N size) keep))
            (edgeUpdate E g x D (augmentedEdges g.addSelfLoops es N size) keep)) ∧
    (∀ adj : AdjT,
      forwardCore E g N D x adj attr size none keep
        = .plain (forwardFeature E g x D
            ((augmentAdj g.addSelfLoops N size adj).edges) keep)) :=
  ⟨fun b es => forwardCore_dense_some E g N D x es attr size b keep,
   fun b es v => forwardCore_sparse_some E g N D x es v attr size b keep,
   fun adj => forwardCore_none E g N D x adj attr size keep⟩

lemma edgeUpdate_keep_indep (E : ℚ → ℚ) (g : GATConv) (x : ℕ → ℕ → ℕ → ℚ)
    (D : ℕ) (es : List (ℕ × ℕ)) (keep₁ keep₂ : ℕ → ℕ → Bool)
    (h : g.training = false) :
    edgeUpdate E g x D es keep₁ = edgeUpdate E g x D es keep₂ := by
  funext k hh
  simp [edgeUpdate, dropoutF, h]

lemma aggOut_keep_indep (E : ℚ → ℚ) (g : GATConv) (x : ℕ → ℕ → ℕ → ℚ)
    (D : ℕ) (es : List (ℕ × ℕ)) (keep₁ keep₂ : ℕ → ℕ → Bool)
    (h : g.training = false) :
    aggOut E g x D es keep₁ = aggOut E g x D es keep₂ := by
  funext n d hh f
  simp only [aggOut]
  rw [edgeUpdate_keep_indep E g x D es keep₁ keep₂ h]

lemma forwardFeature_keep_indep (E : ℚ → ℚ) (g : GATConv)
    (x : ℕ → ℕ → ℕ → ℚ) (D : ℕ) (es : List (ℕ × ℕ))
    (keep₁ keep₂ : ℕ → ℕ → Bool) (h : g.training = false) :
    forwardFeature E g x D es keep₁ = forwardFeature E g x D es keep₂ := by
  funext n d
  simp only [forwardFeature]
  rw [aggOut_keep_indep E g x D es keep₁ keep₂ h]

/-- Claim C7: with dropout disabled (`training = False`), `forward` is a
pure function of the parameters and inputs: two passes with identical
parameters and inputs agree, whatever the state of the random dropout
oracle. -/
theorem forward_deterministic (E : ℚ → ℚ) (g : GATConv) (N D : ℕ)
    (x : ℕ → ℕ → ℕ → ℚ) (adj : AdjT) (attr : Option (List ℚ))
    (size : Option (ℕ × ℕ)) (retAtt : Option Bool)
    (h : g.training = false) (keep₁ keep₂ : ℕ → ℕ → Bool) :
    forwardCore E g N D x adj attr size retAtt keep₁
      = forwardCore E g N D x adj attr size retAtt keep₂ := by
  cases retAtt with
  | none =>
    rw [forwardCore_none, forwardCore_none,
      forwardFeature_keep_indep E g x D _ keep₁ keep₂ h]
  | some b =>
    cases adj with
    | dense es =>
      rw [forwardCore_dense_some, forwardCore_dense_some,
        forwardFeature_keep_indep E g x D _ keep₁ keep₂ h,
        edgeUpdate_keep_indep E g x D _ keep₁ keep₂ h]
    | sparse es v =>
      rw [forwardCore_sparse_some, forwardCore_sparse_some,
        forwardFeature_keep_indep E g x D _ keep₁ keep₂ h,
        edgeUpdate_keep_indep E g x D _ keep₁ keep₂ h]

/-- Closed witness for `forward_deterministic`: the all-keep and all-drop
dropout oracles give the same forward pass at inference. -/
theorem forward_deterministic_witness :
    forwardCore oneE gEx 2 1 xEx (.dense [(0, 1)]) none none none keepT
      = forwardCore oneE gEx 2 1 xEx (.dense [(0, 1)]) none none none keepF :=
  forward_deterministic oneE gEx 2 1 xEx (.dense [(0, 1)]) none none none rfl
    keepT keepF

/-- Claim C8: the caller's edge index and edge attributes are never mutated
by `forward`: after the call the caller still holds exactly the values it
passed, the result being computed from a fresh augmented copy
(`remove_self_loops` then `add_self_loops` of the caller's list) that exists
only inside the call. -/
theorem edge_index_not_mutated (E : ℚ → ℚ) (g : GATConv) (N D : ℕ)
    (x : ℕ → ℕ → ℕ → ℚ) (es : List (ℕ × ℕ)) (attr : Option (List ℚ))
    (size : Option (ℕ × ℕ)) (retAtt : Option Bool) (keep : ℕ → ℕ → Bool) :
    (forwardFrame E g N D x es attr size retAtt keep).2.1 = es ∧
    (forwardFrame E g N D x es attr size retAtt keep).2.2 = attr ∧
    (forwardFrame E g N D x es attr size retAtt keep).1
      = forwardCore E g N D x (.dense es) attr size retAtt keep ∧
    (g.addSelfLoops = true → ∀ b : Bool,
      ((forwardFrame E g N D x es attr size (some b) keep).1).adjOf
        = some (.dense (addSelfLoopsE (removeSelfLoopsE es)
            (effectiveNumNodes N size)))) := by
  refine ⟨rfl, rfl, rfl, fun hasl b => ?_⟩
  show (forwardCore E g N D x (.dense es) attr size (some b) keep).adjOf = _
  rw [forwardCore_dense_adjOf]
  simp [augmentedEdges, hasl]

/-- Closed witness for `edge_index_not_mutated`: a caller edge list holding
a self-loop is returned to the caller unchanged even though the internal
augmented copy differs from it. -/
theorem edge_index_not_mutated_witness :
    (forwardFrame oneE gEx 2 1 xEx [(0, 0), (0, 1)] none none (some true)
        keepT).2.1 = [(0, 0), (0, 1)] ∧
    ((forwardFrame oneE gEx 2 1 xEx [(0, 0), (0, 1)] none none (some true)
        keepT).1).adjOf
      = some (.dense (addSelfLoopsE (removeSelfLoopsE [(0, 0), (0, 1)]) 2)) :=
  ⟨(edge_index_not_mutated oneE gEx 2 1 xEx [(0, 0), (0, 1)] none none
      (some true) keepT).1,
   (edge_index_not_mutated oneE gEx 2 1 xEx [(0, 0), (0, 1)] none none
      (some true) keepT).2.2.2 rfl true⟩

/-- Claim C1: in inference mode (dropout disabled), the attention weights
produced by `edge_update` for the edges sharing a destination node `j` sum
to 1, independently for each head, whenever `j` has at least one incoming
edge.  `E` is the softmax exponential, assumed only strictly positive, as
the true exponential is. -/
theorem attention_sums_to_one (E : ℚ → ℚ) (hE : ∀ v, 0 < E v) (g : GATConv)
    (x : ℕ → ℕ → ℕ → ℚ) (D : ℕ) (es : List (ℕ × ℕ)) (keep : ℕ → ℕ → Bool)
    (j h : ℕ) (htr : g.training = false)
    (hne : ((Finset.range es.length).filter
      (fun k => dstAt es k = j)).Nonempty) :
    ∑ k ∈ (Finset.range es.length).filter (fun k => dstAt es k = j),
      edgeUpdate E g x D es keep k h = 1 := by
  have hlen : es.length ≠ 0 := by
    rcases hne with ⟨k, hk⟩
    have h1 := Finset.mem_range.mp (Finset.mem_filter.mp hk).1
    omega
  have hsum : ∀ k ∈ (Finset.range es.length).filter
      (fun k => dstAt es k = j),
      edgeUpdate E g x D es keep k h
        = E (scoresE g x D es k h) / expSum E g x D es j h := by
    intro k hk
    have hkj := (Finset.mem_filter.mp hk).2
    simp [edgeUpdate, hlen, dropoutF, htr, softmaxW, hkj]
  rw [Finset.sum_congr rfl hsum, ← Finset.sum_div]
  have hpos : 0 < expSum E g x D es j h := by
    rw [expSum]
    exact Finset.sum_pos (fun k _ => hE _) hne
  show expSum E g x D es j h / expSum E g x D es j h = 1
  exact div_self (ne_of_gt hpos)

/-- Closed witness for `attention_sums_to_one`: two edges into node 0, one
head, inference mode. -/
theorem attention_sums_to_one_witness :
    ((Finset.range ([((0 : ℕ), (0 : ℕ)), (1, 0)] : List (ℕ × ℕ)).length).filter
      (fun k => dstAt [(0, 0), (1, 0)] k = 0)).Nonempty ∧
    ∑ k ∈ (Finset.range ([((0 : ℕ), (0 : ℕ)), (1, 0)] : List (ℕ × ℕ)).length).filter
        (fun k => dstAt [(0, 0), (1, 0)] k = 0),
      edgeUpdate oneE gEx xEx 1 [(0, 0), (1, 0)] keepT k 0 = 1 :=
  ⟨by decide,
   attention_sums_to_one oneE (fun _ => one_pos) gEx xEx 1 [(0, 0), (1, 0)]
     keepT 0 0 rfl (by decide)⟩

lemma map_range_mul (H F : ℕ) (v : ℕ → ℕ → ℚ) :
    (List.range (H * F)).map (fun o => v (o / F) (o % F))
      = ((List.range H).map
          (fun hh => (List.range F).map (fun f => v hh f))).flatten := by
  rcases Nat.eq_zero_or_pos F with hF | hF
  · subst hF
    simp
  · induction H with
    | zero => simp
    | succ m ih =>
      have h1 : (m + 1) * F = m * F + F := by ring
      rw [h1, List.range_add, List.map_append, ih, List.range_succ,
        List.map_append, List.flatten_append]
      congr 1
      simp only [List.map_cons, List.map_nil, List.flatten_cons,
        List.flatten_nil, List.append_nil, List.map_map]
      apply List.map_congr_left
      intro f hf
      have hfF : f < F := List.mem_range.mp hf
      have e1 : m * F + f = f + F * m := by ring
      simp only [Function.comp_apply]
      rw [e1, Nat.add_mul_div_left f m hF, Nat.add_mul_mod_self_left,
        Nat.div_eq_of_lt hfF, Nat.mod_eq_of_lt hfF, Nat.zero_add]

/-- Claim C4: the output feature vector has width `heads * out_channels`
when `concat` is set — and is then exactly the concatenation of the
per-head aggregated outputs — and width `out_channels` when `concat` is
unset — and is then the average of the per-head outputs. -/
theorem output_width (E : ℚ → ℚ) (g : GATConv) (x : ℕ → ℕ → ℕ → ℚ) (D : ℕ)
    (es : List (ℕ × ℕ)) (keep : ℕ → ℕ → Bool) (n d : ℕ) :
    ((forwardFeature E g x D es keep n d).length
      = if g.concat then g.heads * g.outChannels else g.outChannels) ∧
    (g.concat = true →
      forwardFeature E g x D es keep n d
        = ((List.range g.heads).map (fun hh =>
            (List.range g.outChannels).map
              (fun f => aggOut E g x D es keep n d hh f))).flatten) ∧
    (g.concat = false →
      forwardFeature E g x D es keep n d
        = (List.range g.outChannels).map (fun f =>
            (∑ hh ∈ Finset.range g.heads, aggOut E g x D es keep n d hh f)
              / g.heads)) := by
  refine ⟨?_, ?_, ?_⟩
  · by_cases hc : g.concat <;> simp [forwardFeature, hc]
  · intro hc
    rw [forwardFeature, if_pos hc, map_range_mul]
  · intro hc
    rw [forwardFeature, if_neg (by simp [hc])]

/-- Closed witness for `output_width`: the concatenation form at a
single-head module with `concat` set, and the averaging form with `concat`
unset. -/
theorem output_width_witness :
    forwardFeature oneE gEx xEx 1 [(0, 1)] keepT 0 0
      = ((List.range gEx.heads).map (fun hh =>
          (List.range gEx.outChannels).map
            (fun f => aggOut oneE gEx xEx 1 [(0, 1)] keepT 0 0 hh f))).flatten ∧
    forwardFeature oneE gExM xEx 1 [(0, 1)] keepT 0 0
      = (List.range gExM.outChannels).map (fun f =>
          (∑ hh ∈ Finset.range gExM.heads,
            aggOut oneE gExM xEx 1 [(0, 1)] keepT 0 0 hh f) / gExM.heads) :=
  ⟨(output_width oneE gEx xEx 1 [(0, 1)] keepT 0 0).2.1 rfl,
   (output_width oneE gExM xEx 1 [(0, 1)] keepT 0 0).2.2 rfl⟩

/-- `x_dim = 2` node features, constant across input channels: node 0 has
values 1 and 3 along the second axis, all other nodes are zero. -/
def xC3 : ℕ → ℕ → ℕ → ℚ := fun n d _ => if n = 0 then (if d = 0 then 1 else 3) else 0

/-- Modelled to the claim's words for comparison (claim C3): the per-edge
raw attention score as the plain per-head sum of the source and destination
logits, indexed over the full `[num_edges, x_dim, heads]` shape — no mean
over the second axis. -/
def specRawScore (g : GATConv) (x : ℕ → ℕ → ℕ → ℚ) (es : List (ℕ × ℕ))
    (k d h : ℕ) : ℚ :=
  alphaSrcN g x (srcAt es k) d h + alphaDstN g x (dstAt es k) d h

/-- Counterexample to claim C3 as stated: with `x_dim = 2`, the raw score
the code computes — the mean over the second axis, shape
`[num_edges, 1, heads]` — differs from the claimed per-head sum of the
endpoint logits at both indices of the claimed `[num_edges, 2, heads]`
shape. -/
theorem raw_score_not_sum_cex :
    alphaMean gEx xC3 2 [(0, 1)] 0 0 = 2 ∧
    specRawScore gEx xC3 [(0, 1)] 0 0 0 = 1 ∧
    specRawScore gEx xC3 [(0, 1)] 0 1 0 = 3 ∧
    ((2 : ℚ) ≠ 1) ∧ ((2 : ℚ) ≠ 3) := by
  refine ⟨?_, ?_, ?_, by norm_num, by norm_num⟩ <;>
    norm_num [alphaMean, specRawScore, alphaSrcN, alphaDstN, xProj, srcAt,
      dstAt, gEx, xC3, Finset.sum_range_succ, Finset.sum_range_one]

/-- Claim C3 (amended): the raw attention score of an edge is the mean over
the `x_dim` axis of the per-head sums of the endpoint logits (`keepdim`
collapsing the axis to size 1) — coinciding with the claimed plain per-head
sum exactly when `x_dim = 1` — after which leaky-ReLU with the configured
`negative_slope` is applied, the softmax (at inference, with at least one
edge) consuming exactly the leaky-ReLU image. -/
theorem raw_score_amended (E : ℚ → ℚ) (g : GATConv) (x : ℕ → ℕ → ℕ → ℚ)
    (D : ℕ) (es : List (ℕ × ℕ)) (keep : ℕ → ℕ → Bool) (k h : ℕ) :
    alphaMean g x D es k h
      = (∑ d ∈ Finset.range D, specRawScore g x es k d h) / D ∧
    (D = 1 → alphaMean g x D es k h = specRawScore g x es k 0 h) ∧
    scoresE g x D es k h
      = leakyRelu g.negativeSlope (alphaMean g x D es k h) ∧
    (es.length ≠ 0 → g.training = false →
      edgeUpdate E g x D es keep k h
        = E (scoresE g x D es k h) / expSum E g x D es (dstAt es k) h) := by
  refine ⟨rfl, ?_, rfl, ?_⟩
  · intro hD
    subst hD
    rw [alphaMean, Finset.sum_range_one]
    simp [specRawScore]
  · intro h1 h2
    simp [edgeUpdate, h1, dropoutF, h2, softmaxW]

/-- Closed witness for `raw_score_amended`: with `x_dim = 1` the mean is the
sum itself, and at inference the attention weight of an edge is the softmax
ratio of its leaky-ReLU score. -/
theorem raw_score_amended_witness :
    alphaMean gEx xC3 1 [(0, 1)] 0 0 = specRawScore gEx xC3 [(0, 1)] 0 0 0 ∧
    edgeUpdate oneE gEx xC3 1 [(0, 1)] keepT 0 0
      = oneE (scoresE gEx xC3 1 [(0, 1)] 0 0)
          / expSum oneE gEx xC3 1 [(0, 1)] (dstAt [(0, 1)] 0) 0 :=
  ⟨(raw_score_amended oneE gEx xC3 1 [(0, 1)] keepT 0 0).2.1 rfl,
   (raw_score_amended oneE gEx xC3 1 [(0, 1)] keepT 0 0).2.2.2
     (by decide) rfl⟩

lemma length_selfLoops (N : ℕ) : (selfLoops N).length = N := by
  simp [selfLoops]

lemma selfLoops_getD (N k : ℕ) (hk : k < N) :
    (selfLoops N).getD k (0, 0) = (k, k) := by
  rw [List.getD_eq_getElem?_getD, selfLoops, List.getElem?_map,
    List.getElem?_range hk]
  rfl

lemma dstAt_selfLoops {N k : ℕ} (hk : k < N) : dstAt (selfLoops N) k = k := by
  rw [dstAt, selfLoops_getD N k hk]

lemma srcAt_selfLoops {N k : ℕ} (hk : k < N) : srcAt (selfLoops N) k = k := by
  rw [srcAt, selfLoops_getD N k hk]

lemma filter_dst_selfLoops (N n : ℕ) (hn : n < N) :
    (Finset.range N).filter (fun k => dstAt (selfLoops N) k = n) = {n} := by
  have hiff : ∀ k ∈ Finset.range N,
      (dstAt (selfLoops N) k = n ↔ k = n) :=
    fun k hk => by rw [dstAt_selfLoops (Finset.mem_range.mp hk)]
  rw [Finset.filter_congr hiff, Finset.filter_eq',
    if_pos (Finset.mem_range.mpr hn)]

lemma expSum_selfLoops (E : ℚ → ℚ) (g : GATConv) (x : ℕ → ℕ → ℕ → ℚ)
    (D : ℕ) {N n : ℕ} (hn : n < N) (hh : ℕ) :
    expSum E g x D (selfLoops N) n hh
      = E (scoresE g x D (selfLoops N) n hh) := by
  rw [expSum, length_selfLoops, filter_dst_selfLoops N n hn,
    Finset.sum_singleton]

lemma edgeUpdate_selfLoops (E : ℚ → ℚ) (hE : ∀ v, 0 < E v) (g : GATConv)
    (x : ℕ → ℕ → ℕ → ℚ) (D : ℕ) (keep : ℕ → ℕ → Bool)
    (htr : g.training = false) {N n : ℕ} (hn : n < N) (hh : ℕ) :
    edgeUpdate E g x D (selfLoops N) keep n hh = 1 := by
  have hlen : (selfLoops N).length ≠ 0 := by
    rw [length_selfLoops]
    omega
  rw [edgeUpdate, if_neg hlen]
  simp only [dropoutF, htr, Bool.false_eq_true, if_false]
  rw [softmaxW, dstAt_selfLoops hn, expSum_selfLoops E g x D hn hh]
  exact div_self (ne_of_gt (hE _))

lemma augmentedEdges_nil (N : ℕ) :
    augmentedEdges true [] N none = selfLoops N := by
  simp [augmentedEdges, addSelfLoopsE, removeSelfLoopsE, effectiveNumNodes]

lemma aggOut_selfLoops (E : ℚ → ℚ) (hE : ∀ v, 0 < E v) (g : GATConv)
    (x : ℕ → ℕ → ℕ → ℚ) (D : ℕ) (keep : ℕ → ℕ → Bool)
    (htr : g.training = false) {N n : ℕ} (hn : n < N) (d hh f : ℕ) :
    aggOut E g x D (selfLoops N) keep n d hh f = xProj g x n d hh f := by
  rw [aggOut, length_selfLoops, filter_dst_selfLoops N n hn,
    Finset.sum_singleton, edgeUpdate_selfLoops E hE g x D keep htr hn hh,
    srcAt_selfLoops hn, one_mul]

/-- Counterexample to claim C9 as stated: on an edge-free graph with
`add_self_loops` disabled, the layer's output is the zero vector produced by
the empty aggregation, not an "unchanged passthrough" of the (nonzero)
input: here the input feature and its projection are 1 while the output
entry is 0. -/
theorem zero_edges_passthrough_cex :
    forwardFeature oneE gExNL xEx 1 [] keepT 0 0 = [0] ∧
    xEx 0 0 0 = 1 ∧
    xProj gExNL xEx 0 0 0 0 = 1 ∧
    ([(0 : ℚ)] ≠ [(1 : ℚ)]) := by
  refine ⟨?_, rfl, ?_, by simp⟩
  · simp [forwardFeature, gExNL, gEx, aggOut, List.range_succ]
  · norm_num [xProj, gExNL, gEx, xEx, Finset.sum_range_one]

/-- Claim C9 (amended): with zero edges the softmax/dropout pipeline is
skipped — `edge_update` returns the (empty) post-mean logits unchanged, no
division by zero; with `add_self_loops` disabled, the aggregated output of
an edge-free graph is identically zero (the empty scatter-add); with
`add_self_loops` enabled (inference), the per-head aggregated output of
each node is exactly its own projected feature — the self-loop-only
projection. -/
theorem zero_edges_behavior (E : ℚ → ℚ) (g : GATConv) (x : ℕ → ℕ → ℕ → ℚ)
    (D : ℕ) (keep : ℕ → ℕ → Bool) :
    (∀ k hh, edgeUpdate E g x D [] keep k hh = alphaMean g x D [] k hh) ∧
    (∀ n d y, y ∈ forwardFeature E g x D [] keep n d → y = 0) ∧
    ((∀ v, 0 < E v) → g.training = false → ∀ N n, n < N → ∀ d hh f,
      aggOut E g x D (augmentedEdges true [] N none) keep n d hh f
        = xProj g x n d hh f) := by
  refine ⟨fun k hh => by simp [edgeUpdate], ?_, ?_⟩
  · intro n d y hy
    rw [forwardFeature] at hy
    by_cases hc : g.concat
    · rw [if_pos hc] at hy
      rcases List.mem_map.mp hy with ⟨o, _, rfl⟩
      simp [aggOut]
    · rw [if_neg hc] at hy
      rcases List.mem_map.mp hy with ⟨f, _, rfl⟩
      simp [aggOut]
  · intro hE htr N n hn d hh f
    rw [augmentedEdges_nil, aggOut_selfLoops E hE g x D keep htr hn d hh f]

/-- Closed witness for `zero_edges_behavior`: the empty-graph passthrough of
the logits, the zero output entry, and the self-loop-only projection at a
concrete 1-node module. -/
theorem zero_edges_behavior_witness :
    edgeUpdate oneE gEx xEx 1 [] keepT 0 0 = alphaMean gEx xEx 1 [] 0 0 ∧
    (0 : ℚ) = 0 ∧
    aggOut oneE gEx xEx 1 (augmentedEdges true [] 1 none) keepT 0 0 0 0
      = xProj gEx xEx 0 0 0 0 :=
  ⟨(zero_edges_behavior oneE gEx xEx 1 keepT).1 0 0,
   (zero_edges_behavior oneE gEx xEx 1 keepT).2.1 0 0 0
     (by simp [forwardFeature, gEx, aggOut, List.range_succ]),
   (zero_edges_behavior oneE gEx xEx 1 keepT).2.2 (fun _ => one_pos) rfl
     1 0 (by decide) 0 0 0⟩

end GAT
